import Mathlib

/-!
Verification of eslint-plugin-qunit rule logic against its specification.

The embedding models the ESTree AST fragment that the rules inspect, the
shared classifier utilities, and the per-rule visitor logic, following the
JavaScript sources.  Rules are modelled as folds over the depth-first
traversal that the ESLint host performs; per-call analysis functions are
modelled directly on call nodes.
-/

/-- Value carried by an ESTree `Literal` node. -/
inductive LitVal : Type where
  | bool (b : Bool)
  | str (s : String)
  | num (n : Int)
  | null
  deriving DecidableEq, Repr

/-- The five loop statement kinds that `no-async-in-loops` subscribes to
(`WhileStatement`, `DoWhileStatement`, `ForStatement`, `ForInStatement`,
`ForOfStatement`); each has identical push/pop handlers in the source. -/
inductive LoopKind : Type where
  | whileLoop
  | doWhileLoop
  | forLoop
  | forInLoop
  | forOfLoop
  deriving DecidableEq, Repr

/-- The ESTree node fragment consumed by the modelled rules.
`lit` carries the line of its source location (`loc.start.line`), which the
duplicate-name rule places in its diagnostic data.  A function body is a
`block` node, as in ESTree, so the parent chain
CallExpression → ExpressionStatement → BlockStatement → Function →
CallExpression used by `no-hooks-from-ancestor-modules` is representable.
A `block` node also stands for the top-level `Program` container.
`arrayPat` is an array destructuring pattern (a non-`Identifier`
assignment target). -/
inductive Node : Type where
  | ident (name : String)
  | lit (v : LitVal) (line : Nat)
  | member (obj : Node) (propNode : Node)
  | call (callee : Node) (args : List Node)
  | unary (op : String) (argument : Node)
  | fn (arrow : Bool) (params : List Node) (body : Node)
  | block (stmts : List Node)
  | exprStmt (e : Node)
  | arrayPat (elements : List Node)
  | loopStmt (kind : LoopKind) (sub : List Node)
  deriving Repr

instance : Inhabited Node := ⟨.ident ""⟩

/-- Rendering of a literal's source text (`sourceCode.getText` on a
`Literal` node); string literals are shown single-quoted. -/
def LitVal.text : LitVal → String
  | .bool true => "true"
  | .bool false => "false"
  | .str s => "'" ++ s ++ "'"
  | .num n => toString n
  | .null => "null"

/-- `Array.prototype.join(", ")` over rendered texts. -/
def joinTexts (l : List String) : String :=
  String.intercalate ", " l

mutual

/-- `sourceCode.getText(node)`: the source text of a node.  The embedding
uses a canonical rendering of each node as its source text. -/
def getText : Node → String
  | .ident name => name
  | .lit v _ => v.text
  | .member obj propNode => getText obj ++ "." ++ getText propNode
  | .call callee args => getText callee ++ "(" ++ joinTexts (getTextList args) ++ ")"
  | .unary op argument => op ++ getText argument
  | .fn _ params body =>
      "function(" ++ joinTexts (getTextList params) ++ ") " ++ getText body
  | .block stmts => "\x7b " ++ joinTexts (getTextList stmts) ++ " \x7d"
  | .exprStmt e => getText e ++ ";"
  | .arrayPat elements => "[" ++ joinTexts (getTextList elements) ++ "]"
  | .loopStmt _ sub => "loop \x7b " ++ joinTexts (getTextList sub) ++ " \x7d"

/-- Texts of a list of nodes. -/
def getTextList : List Node → List String
  | [] => []
  | n :: ns => getText n :: getTextList ns

end

example : getText (.call (.member (.ident "assert") (.ident "ok"))
    [.unary "!" (.ident "foo"), .lit (.str "msg") 3]) = "assert.ok(!foo, 'msg')" := rfl

example : getTextList [Node.ident "a", Node.ident "b"] = ["a", "b"] := rfl

/-! ## Shared classifier utilities (`lib/utils.js`)

The file `lib/utils.js` is not among the provided sources (only its
callers are), so the classifier predicates below are modelled from the
specification's Call-Shape Classifier contract (spec section 4.1). -/

namespace Utils

/-- Modelled from the spec: the fixed supported set of test registration
names (primary, legacy async, and "only" variants); `lib/utils.js` is not
in the sources. -/
def testNames : List String := ["test", "asyncTest", "only"]

/-- Modelled from the spec: test registration is an identifier in the
supported set, or a member access whose object is the fixed namespace
identifier `QUnit` and whose property is in the same set. -/
def isTest : Node → Bool
  | .ident name => name ∈ testNames
  | .member (.ident q) (.ident p) => q == "QUnit" && p ∈ testNames
  | _ => false

/-- Modelled from the spec: legacy async-test registration (`asyncTest`
bare or namespaced). -/
def isAsyncTest : Node → Bool
  | .ident name => name == "asyncTest"
  | .member (.ident q) (.ident p) => q == "QUnit" && p == "asyncTest"
  | _ => false

/-- Modelled from the spec: module registration is the identifier
`module` or `QUnit.module`. -/
def isModule : Node → Bool
  | .ident name => name == "module"
  | .member (.ident q) (.ident p) => q == "QUnit" && p == "module"
  | _ => false

/-- Modelled from the spec: async-control "stop" call, bare or
namespaced. -/
def isStop : Node → Bool
  | .ident name => name == "stop"
  | .member (.ident q) (.ident p) => q == "QUnit" && p == "stop"
  | _ => false

/-- Modelled from the spec: async-control "start" call, bare or
namespaced. -/
def isStart : Node → Bool
  | .ident name => name == "start"
  | .member (.ident q) (.ident p) => q == "QUnit" && p == "start"
  | _ => false

/-- Is the node a function-like argument (`FunctionExpression` or
`ArrowFunctionExpression`)? -/
def isFunctionNode : Node → Bool
  | .fn _ _ _ => true
  | _ => false

/-- A parameter that is a plain identifier and not the type-only `this`
annotation. -/
def isUsableParam : Node → Bool
  | .ident name => name != "this"
  | _ => false

/-- Modelled from the spec: the bound assertion-variable name is derived
from a function's parameter list, skipping any parameter that represents
a type-only `this` annotation; null when there is no such parameter. -/
def getAssertContextName : Node → Option String
  | .fn _ params _ =>
      match params.find? isUsableParam with
      | some (.ident name) => some name
      | _ => none
  | _ => none

/-- Modelled from the spec: the assertion-context name for a test
registration comes from the first function-like argument's parameter
list. -/
def getAssertContextNameForTest (args : List Node) : Option String :=
  match args.find? isFunctionNode with
  | some f => getAssertContextName f
  | none => none

/-- Modelled from the spec: a call to `.async()` on the currently bound
assertion-context variable. -/
def isAsyncCallExpression (n : Node) (assertContextVar : String) : Bool :=
  match n with
  | .call (.member (.ident obj) (.ident p)) _ =>
      obj == assertContextVar && p == "async"
  | _ => false

/-- Modelled from the spec: the closed set of recognized assertion names
(the assertion metadata table's keys). -/
def knownAssertionNames : List String :=
  ["deepEqual", "equal", "false", "notDeepEqual", "notEqual", "notOk",
   "notPropEqual", "notStrictEqual", "ok", "propEqual", "strictEqual",
   "throws", "true"]

/-- Modelled from the spec: an assertion call is a bare identifier
matching a known assertion name (global form), or a member call whose
object identifier equals the currently bound assertion-context variable
and whose property matches a known assertion name. -/
def isAssertion (calleeNode : Node) (assertVar : String) : Bool :=
  match calleeNode with
  | .ident name => name ∈ knownAssertionNames
  | .member (.ident obj) (.ident p) =>
      obj == assertVar && p ∈ knownAssertionNames
  | _ => false

end Utils

/-! ## Rule `no-assert-equal-boolean` (claims C2, C3)

Translated from `lib/rules/no-assert-equal-boolean.js`. -/

namespace Nab

/-- `EQUALITY_ASSERTIONS` from the source. -/
def EQUALITY_ASSERTIONS : List String := ["equal", "deepEqual", "strictEqual"]

/-- One entry of the rule's test stack: the assertion-context variable
name captured when a test registration was entered. -/
structure TestFrame : Type where
  assertVar : Option String
  deriving Repr, DecidableEq

/-- `getCurrentAssertContextVariable`: top of the test stack.  The source
hard-asserts that the stack is non-empty (`assert(testStack.length)`);
the model returns `none` exactly when that assertion would fire.  The
stack grows at the head, so the head is the innermost frame. -/
def getCurrentAssertContextVariable (testStack : List TestFrame) : Option (Option String) :=
  match testStack with
  | [] => none
  | f :: _ => some f.assertVar

/-- `isGlobalEqualityAssertion`: something like `equal(...)` without an
assert parameter.  Note that the source performs no scope resolution
here: any bare identifier with an equality-assertion name matches. -/
def isGlobalEqualityAssertion (calleeNode : Node) : Bool :=
  match calleeNode with
  | .ident name => name ∈ EQUALITY_ASSERTIONS
  | _ => false

/-- `isAssertEquality`: something like `assert.equal(...)`, the object
name equal to the current assertion-context variable. -/
def isAssertEquality (testStack : List TestFrame) (calleeNode : Node) : Bool :=
  match calleeNode with
  | .member (.ident obj) (.ident p) =>
      p ∈ EQUALITY_ASSERTIONS &&
        match getCurrentAssertContextVariable testStack with
        | some (some v) => obj == v
        | _ => false
  | _ => false

/-- `isEqualityAssertion`: either of the above. -/
def isEqualityAssertion (testStack : List TestFrame) (calleeNode : Node) : Bool :=
  isGlobalEqualityAssertion calleeNode || isAssertEquality testStack calleeNode

/-- Is the node a `Literal` with value `true` or `false`? -/
def isBooleanLiteral : Node → Bool
  | .lit (.bool _) _ => true
  | _ => false

/-- `getBooleanArgument`: the first boolean argument among the first two
call arguments, if one exists (`[args[0], args[1]].find(...)`).
JavaScript object identity of the found node is modelled by returning its
index (0 or 1) in the argument list. -/
def getBooleanArgument (args : List Node) : Option Nat :=
  if args.length < 2 then none
  else if isBooleanLiteral args[0]! then some 0
  else if isBooleanLiteral args[1]! then some 1
  else none

/-- The literal boolean value of a node, when it is a boolean literal. -/
def booleanLiteralValue : Node → Option Bool
  | .lit (.bool b) _ => some b
  | _ => none

/-- The fixer part of `reportError`: returns the replacement text for the
whole call, or `none` when no rewrite is produced.  The new argument list
drops the found boolean argument by object identity
(`arg !== booleanArgument`), modelled by dropping the found index.  The
assert-variable part before the new name is empty for a bare-identifier
callee and `<current assert var>.` otherwise (JavaScript renders a null
variable as the string "null"). -/
def reportErrorFix (testStack : List TestFrame) (calleeNode : Node)
    (args : List Node) : Option String :=
  match getBooleanArgument args with
  | none => none
  | some i =>
      let newAssertionFunctionName :=
        if (booleanLiteralValue args[i]!).getD false then "true" else "false"
      let newArgsTextArray := (args.eraseIdx i).map getText
      let newArgsTextJoined := joinTexts newArgsTextArray
      let assertVariableLead :=
        match calleeNode with
        | .ident _ => ""
        | _ =>
            match getCurrentAssertContextVariable testStack with
            | some (some v) => v ++ "."
            | _ => "null."
      some (assertVariableLead ++ newAssertionFunctionName ++ "(" ++
        newArgsTextJoined ++ ")")

/-- The non-test branch of the rule's `CallExpression` handler: the call
is reported when the test stack is non-empty, the callee is an equality
assertion, and a boolean argument exists. -/
def shouldReport (testStack : List TestFrame) (calleeNode : Node)
    (args : List Node) : Bool :=
  testStack.length > 0 && isEqualityAssertion testStack calleeNode &&
    (getBooleanArgument args).isSome

end Nab

/-- `getTextList` agrees with mapping `getText`. -/
theorem getTextList_eq_map (l : List Node) : getTextList l = l.map getText := by
  induction l with
  | nil => rfl
  | cons n ns ih => simp [getTextList, ih]

namespace Nab

/-- `getBooleanArgument` succeeds exactly when there are at least two
arguments and one of the first two is a boolean literal. -/
theorem getBooleanArgument_isSome_iff (args : List Node) :
    (getBooleanArgument args).isSome ↔
      2 ≤ args.length ∧
        (isBooleanLiteral args[0]! = true ∨ isBooleanLiteral args[1]! = true) := by
  unfold getBooleanArgument
  split_ifs with h1 h2 h3 <;> simp_all

end Nab

namespace Nab

/-- Claim C2, counterexample: the call `assert.equal(true, false)` inside
a test frame binding `assert` has boolean literals in BOTH of its first
two argument positions, is reported by the rule, and nevertheless
receives a fix (rewriting to `assert.true(false)`), contradicting the
claim that no fix is offered when both arguments are boolean literals. -/
theorem nab_both_boolean_literals_still_fixed :
    shouldReport [⟨some "assert"⟩] (.member (.ident "assert") (.ident "equal"))
        [.lit (.bool true) 1, .lit (.bool false) 1] = true ∧
      isBooleanLiteral (Node.lit (.bool true) 1) = true ∧
      isBooleanLiteral (Node.lit (.bool false) 1) = true ∧
      reportErrorFix [⟨some "assert"⟩] (.member (.ident "assert") (.ident "equal"))
        [.lit (.bool true) 1, .lit (.bool false) 1] = some "assert.true(false)" := by
  refine ⟨rfl, rfl, rfl, rfl⟩

/-- Claim C2 as amended: the fix of the boolean-assertion rule is offered
exactly when the call has at least two arguments and at least one of the
first two is a boolean literal; in particular every call the rule reports
receives a fix (the report is gated on `getBooleanArgument` succeeding,
and the fix recomputes the same function). -/
theorem nab_fix_condition (testStack : List TestFrame) (calleeNode : Node)
    (args : List Node) :
    ((reportErrorFix testStack calleeNode args).isSome ↔
        2 ≤ args.length ∧
          (isBooleanLiteral args[0]! = true ∨ isBooleanLiteral args[1]! = true)) ∧
      (shouldReport testStack calleeNode args = true →
        (reportErrorFix testStack calleeNode args).isSome) := by
  have hfix : (reportErrorFix testStack calleeNode args).isSome =
      (getBooleanArgument args).isSome := by
    unfold reportErrorFix
    cases getBooleanArgument args <;> simp
  constructor
  · rw [hfix]
    exact getBooleanArgument_isSome_iff args
  · intro hrep
    rw [hfix]
    simp only [shouldReport, Bool.and_eq_true] at hrep
    exact hrep.2

/-- Witness for `nab_fix_condition`: a reported call with one boolean
literal argument indeed receives a fix. -/
theorem nab_fix_condition_witness :
    (reportErrorFix [⟨some "assert"⟩] (.member (.ident "assert") (.ident "equal"))
      [.lit (.bool true) 2, .ident "x"]).isSome := by
  exact (nab_fix_condition [⟨some "assert"⟩] (.member (.ident "assert") (.ident "equal"))
    [.lit (.bool true) 2, .ident "x"]).2 (by rfl)

/-- Claim C3: for an equality-assertion call with exactly one boolean
literal among its first two arguments, the fix output is exactly the
source text of the call to the corresponding `true`/`false` assertion
(prefixed with the bound assert variable for member-form callees, bare
for identifier callees), with the boolean literal removed from the
argument list and the remaining arguments in their original order and
text. -/
theorem nab_fix_output (testStack : List TestFrame) (w : String)
    (a0 a1 : Node) (rest : List Node) (b : Bool)
    (hone : (booleanLiteralValue a0 = some b ∧ isBooleanLiteral a1 = false) ∨
      (isBooleanLiteral a0 = false ∧ booleanLiteralValue a1 = some b))
    (hvar : getCurrentAssertContextVariable testStack = some (some w)) :
    ∀ obj propName : String,
      reportErrorFix testStack (.member (.ident obj) (.ident propName))
          (a0 :: a1 :: rest) =
        some (getText (.call (.member (.ident w)
          (.ident (cond b "true" "false")))
          ((a0 :: a1 :: rest).eraseIdx (if isBooleanLiteral a0 then 0 else 1)))) ∧
      reportErrorFix testStack (.ident propName) (a0 :: a1 :: rest) =
        some (getText (.call (.ident (cond b "true" "false"))
          ((a0 :: a1 :: rest).eraseIdx (if isBooleanLiteral a0 then 0 else 1)))) := by
  intro obj propName
  rcases hone with ⟨hv, hb1⟩ | ⟨hb0, hv⟩
  · obtain ⟨ln, rfl⟩ : ∃ ln, a0 = Node.lit (.bool b) ln := by
      cases a0 with
      | lit v ln => cases v <;> simp_all [booleanLiteralValue]
      | _ => simp_all [booleanLiteralValue]
    have hga : getBooleanArgument (Node.lit (.bool b) ln :: a1 :: rest) = some 0 := by
      have hlen : ¬ ((Node.lit (.bool b) ln :: a1 :: rest).length < 2) := by
        simp
      unfold getBooleanArgument
      rw [if_neg hlen, if_pos (by simp [isBooleanLiteral])]
    simp only [reportErrorFix, hga, hvar, isBooleanLiteral, if_true]
    simp [booleanLiteralValue, getText, getTextList_eq_map, joinTexts,
      List.eraseIdx]
    cases b <;> simp [String.append_assoc]
  · obtain ⟨ln, rfl⟩ : ∃ ln, a1 = Node.lit (.bool b) ln := by
      cases a1 with
      | lit v ln => cases v <;> simp_all [booleanLiteralValue]
      | _ => simp_all [booleanLiteralValue]
    have hga : getBooleanArgument (a0 :: Node.lit (.bool b) ln :: rest) = some 1 := by
      have hlen : ¬ ((a0 :: Node.lit (.bool b) ln :: rest).length < 2) := by
        simp
      unfold getBooleanArgument
      rw [if_neg hlen, if_neg (by simp [hb0]), if_pos (by simp [isBooleanLiteral])]
    simp only [reportErrorFix, hga, hvar, hb0, if_false, Bool.false_eq_true]
    simp [booleanLiteralValue, getText, getTextList_eq_map, joinTexts,
      List.eraseIdx, hb0]
    cases b <;> simp [String.append_assoc]

/-- Witness for `nab_fix_output`: `assert.equal(x, true, 'msg')` is fixed
to `assert.true(x, 'msg')`. -/
theorem nab_fix_output_witness :
    reportErrorFix [⟨some "assert"⟩] (.member (.ident "assert") (.ident "equal"))
        [.ident "x", .lit (.bool true) 4, .lit (.str "msg") 4] =
      some "assert.true(x, 'msg')" := by
  have h := nab_fix_output [⟨some "assert"⟩] "assert" (.ident "x")
    (.lit (.bool true) 4) [.lit (.str "msg") 4] true
    (Or.inr ⟨rfl, rfl⟩) rfl "assert" "equal"
  simpa using h.1

end Nab

/-! ## Child lists and structural induction over the AST -/

/-- The owned child nodes of a node, in source order; this is the order in
which the host's depth-first traversal visits them. -/
def children : Node → List Node
  | .ident _ => []
  | .lit _ _ => []
  | .member obj propNode => [obj, propNode]
  | .call callee args => callee :: args
  | .unary _ argument => [argument]
  | .fn _ params body => params ++ [body]
  | .block stmts => stmts
  | .exprStmt e => [e]
  | .arrayPat elements => elements
  | .loopStmt _ sub => sub

theorem sizeOf_children {n c : Node} (h : c ∈ children n) : sizeOf c < sizeOf n := by
  cases n with
  | ident name => simp [children] at h
  | lit v line => simp [children] at h
  | member obj propNode =>
      simp [children] at h
      rcases h with rfl | rfl <;> first | (simp; omega) | simp
  | call callee args =>
      simp [children] at h
      rcases h with rfl | h
      · simp
        omega
      · have := List.sizeOf_lt_of_mem h
        simp only [Node.call.sizeOf_spec]
        omega
  | unary op argument =>
      simp [children] at h
      subst h
      simp
  | fn arrow params body =>
      simp [children] at h
      rcases h with h | rfl
      · have := List.sizeOf_lt_of_mem h
        simp only [Node.fn.sizeOf_spec]
        omega
      · simp
  | block stmts =>
      simp only [children] at h
      have := List.sizeOf_lt_of_mem h
      simp only [Node.block.sizeOf_spec]
      omega
  | exprStmt e =>
      simp [children] at h
      subst h
      simp
  | arrayPat elements =>
      simp only [children] at h
      have := List.sizeOf_lt_of_mem h
      simp only [Node.arrayPat.sizeOf_spec]
      omega
  | loopStmt kind sub =>
      simp only [children] at h
      have := List.sizeOf_lt_of_mem h
      simp only [Node.loopStmt.sizeOf_spec]
      omega

/-- Structural induction over the AST: to prove a property of every node
it suffices to prove it of a node assuming it of all its children. -/
theorem node_ind (P : Node → Prop) (ih : ∀ n, (∀ c ∈ children n, P c) → P n) :
    ∀ n, P n := by
  have key : ∀ (k : Nat) (n : Node), sizeOf n ≤ k → P n := by
    intro k
    induction k with
    | zero => intro n hn; exact absurd hn (by cases n <;> simp)
    | succ k IH =>
        intro n hn
        exact ih n (fun c hc => IH c (by have := sizeOf_children hc; omega))
  exact fun n => key (sizeOf n) n le_rfl

/-! ## Rule `no-negated-ok` (claim C4)

Translated from `lib/rules/no-negated-ok.js`. -/

namespace Nok

/-- `ASSERTION_OPPOSITES` from the source: the listed opposite of each of
the four checked assertion names; `none` for any other name (the source
fixer returns null for a property name outside the four before the table
lookup, merged here into one partial map). -/
def opposite : String → Option String
  | "false" => some "true"
  | "notOk" => some "ok"
  | "ok" => some "notOk"
  | "true" => some "false"
  | _ => none

/-- `POSITIVE_ASSERTIONS ∪ NEGATIVE_ASSERTIONS` = `ASSERTIONS_TO_CHECK`. -/
def ASSERTIONS_TO_CHECK : List String := ["ok", "true", "notOk", "false"]

/-- A frame of the rule's stack (pushed per test registration). -/
structure NokFrame : Type where
  assertContextVar : Option String
  deriving Repr, DecidableEq

/-- `getAssertVar`: the top frame's assertion-context variable, null when
the stack is empty.  The stack grows at the head. -/
def getAssertVar (stack : List NokFrame) : Option String :=
  match stack with
  | [] => none
  | f :: _ => f.assertContextVar

/-- `isOkOrNotOk`: a member callee whose object is the current
assertion-context variable and whose property is one of the four checked
assertion names. -/
def isOkOrNotOk (stack : List NokFrame) (calleeNode : Node) : Bool :=
  match calleeNode with
  | .member (.ident obj) (.ident p) =>
      (match getAssertVar stack with
        | some v => obj == v
        | none => false) && p ∈ ASSERTIONS_TO_CHECK
  | _ => false

/-- The rule's `isAssertion` wrapper: false when no assertion-context
variable is bound, otherwise delegates to the utils classifier. -/
def isAssertionGate (stack : List NokFrame) (calleeNode : Node) : Bool :=
  match getAssertVar stack with
  | some v => Utils.isAssertion calleeNode v
  | none => false

/-- `getNegationDepth`: number of consecutive leading unary-not
operators. -/
def getNegationDepth : Node → Nat
  | .unary "!" a => getNegationDepth a + 1
  | _ => 0

/-- `unwrapNegation`: the first argument with all leading unary-not
operators removed. -/
def unwrapNegation : Node → Node
  | .unary "!" a => unwrapNegation a
  | n => n

/-- A diagnostic of the rule: the callee text placed in the message data,
and the fixer's replacement text for the whole call (when produced). -/
structure NDiag : Type where
  calleeText : String
  fixOutput : Option String
  deriving Repr, DecidableEq

/-- `checkForNegation`: fires when the call has at least one argument and
the first argument's negation depth is odd; the fix swaps to the opposite
assertion name with the first argument fully unwrapped and the remaining
arguments kept. -/
def checkForNegation (n : Node) : Option NDiag :=
  match n with
  | .call callee (firstArgNode :: restArgs) =>
      if getNegationDepth firstArgNode % 2 == 1 then
        some { calleeText := getText callee,
               fixOutput :=
                 match callee with
                 | .member (.ident assertionVariableName) (.ident propertyName) =>
                     match opposite propertyName with
                     | some opp =>
                         some (assertionVariableName ++ "." ++ opp ++ "(" ++
                           joinTexts ((unwrapNegation firstArgNode :: restArgs).map
                             getText) ++ ")")
                     | none => none
                 | _ => none }
      else none
  | _ => none

/-- The rule's `CallExpression` handler on a non-test call: the check
runs only when the callee passes both `isAssertion` and `isOkOrNotOk`. -/
def nokCheck (stack : List NokFrame) (calleeNode : Node) (args : List Node) :
    Option NDiag :=
  if isAssertionGate stack calleeNode && isOkOrNotOk stack calleeNode then
    checkForNegation (.call calleeNode args)
  else none

/-- Unwrapping removes every leading negation: the unwrapped argument has
negation depth zero. -/
theorem getNegationDepth_unwrapNegation (n : Node) :
    getNegationDepth (unwrapNegation n) = 0 := by
  refine node_ind (fun n => getNegationDepth (unwrapNegation n) = 0) ?_ n
  intro m ihc
  cases m with
  | unary op a =>
      by_cases hop : op = "!"
      · subst hop
        have h1 : unwrapNegation (.unary "!" a) = unwrapNegation a := rfl
        rw [h1]
        exact ihc a (by simp [children])
      · have h1 : unwrapNegation (.unary op a) = .unary op a := by
          unfold unwrapNegation
          split <;> simp_all
        rw [h1]
        unfold getNegationDepth
        split <;> simp_all
  | ident name => rfl
  | lit v line => rfl
  | member obj propNode => rfl
  | call callee args => rfl
  | fn arrow params body => rfl
  | block stmts => rfl
  | exprStmt e => rfl
  | arrayPat elements => rfl
  | loopStmt kind sub => rfl

end Nok

/-- Claim C4: for a member-form `ok`/`true`/`notOk`/`false` assertion call
inside a test frame binding the assert variable, the negation rule fires
exactly when the first argument carries an odd number of leading
unary-not operators; when it fires, the fix replaces the call with the
listed opposite assertion applied to the fully unwrapped first argument
followed by the remaining arguments, and the unwrapped argument carries
no residual negation. -/
theorem nok_negation_check (v p opp : String) (hp : Nok.opposite p = some opp)
    (a0 : Node) (rest : List Node) :
    ((Nok.nokCheck [⟨some v⟩] (.member (.ident v) (.ident p)) (a0 :: rest)).isSome
        ↔ Nok.getNegationDepth a0 % 2 = 1) ∧
      (Nok.getNegationDepth a0 % 2 = 1 →
        Nok.nokCheck [⟨some v⟩] (.member (.ident v) (.ident p)) (a0 :: rest) =
          some ⟨getText (.member (.ident v) (.ident p)),
            some (v ++ "." ++ opp ++ "(" ++
              joinTexts ((Nok.unwrapNegation a0 :: rest).map getText) ++ ")")⟩) ∧
      Nok.getNegationDepth (Nok.unwrapNegation a0) = 0 := by
  have hdz := Nok.getNegationDepth_unwrapNegation a0
  have hp4 : p = "false" ∨ p = "notOk" ∨ p = "ok" ∨ p = "true" := by
    rw [Nok.opposite.eq_def] at hp
    split at hp <;> simp_all
  rcases hp4 with rfl | rfl | rfl | rfl <;>
    (simp only [Nok.opposite, Option.some.injEq] at hp; subst hp) <;>
    (refine ⟨?_, fun hd => ?_, hdz⟩ <;>
      first
        | simp [Nok.nokCheck, Nok.isAssertionGate, Nok.getAssertVar,
            Utils.isAssertion, Utils.knownAssertionNames, Nok.isOkOrNotOk,
            Nok.ASSERTIONS_TO_CHECK, Nok.checkForNegation, Nok.opposite, hd,
            getText, getTextList_eq_map, joinTexts]
        | (by_cases hd : Nok.getNegationDepth a0 % 2 = 1 <;>
            simp [Nok.nokCheck, Nok.isAssertionGate, Nok.getAssertVar,
              Utils.isAssertion, Utils.knownAssertionNames, Nok.isOkOrNotOk,
              Nok.ASSERTIONS_TO_CHECK, Nok.checkForNegation, Nok.opposite, hd]))

/-- Witness for `nok_negation_check`: `assert.ok(!foo, 'msg')` fires and
is fixed to `assert.notOk(foo, 'msg')`. -/
theorem nok_negation_check_witness :
    Nok.nokCheck [⟨some "assert"⟩] (.member (.ident "assert") (.ident "ok"))
        [.unary "!" (.ident "foo"), .lit (.str "msg") 5] =
      some ⟨"assert.ok",
        some "assert.notOk(foo, 'msg')"⟩ := by
  have h := nok_negation_check "assert" "ok" "notOk" rfl
    (.unary "!" (.ident "foo")) [.lit (.str "msg") 5]
  have h2 := h.2.1 (by rfl)
  simpa using h2

/-! ## Rule `literal-compare-order` (claim C5)

Translated from the `literal-compare-order` rule source. -/

namespace Lco

/-- Is the node an ESTree `Literal`? -/
def isLiteralNode : Node → Bool
  | .lit _ _ => true
  | _ => false

/-- One text replacement produced by a fixer: the target node and its
replacement text (`fixer.replaceText`). -/
structure Replacement : Type where
  target : Node
  newText : String
  deriving Repr

/-- `swapFirstTwoNodesInList`: two replacements exchanging the source
texts of the first two nodes of the list verbatim. -/
def swapFirstTwoNodesInList (list : List Node) : List Replacement :=
  [⟨list[0]!, getText list[1]!⟩, ⟨list[1]!, getText list[0]!⟩]

/-- The two message identifiers of the rule. -/
inductive LcoMsgId : Type where
  | actualFirst
  | expectedFirst
  deriving Repr, DecidableEq

/-- A diagnostic of the rule: message id, the node reported on
(`args[0]`), the two text data fields, and the swap fix. -/
structure LcoDiag : Type where
  msgId : LcoMsgId
  onNode : Node
  expectedText : String
  actualText : String
  fix : List Replacement
  deriving Repr

/-- `checkLiteralCompareOrder`: with at least two arguments, report
`actualFirst` when the convention is actual-first and the first argument
is a literal while the second is not, `expectedFirst` in the symmetric
case for the opposite convention, and nothing otherwise. -/
def checkLiteralCompareOrder (args : List Node) (compareActualFirst : Bool) :
    List LcoDiag :=
  match args with
  | a0 :: a1 :: _ =>
      if compareActualFirst && isLiteralNode a0 && !isLiteralNode a1 then
        [⟨.actualFirst, a0, getText a0, getText a1,
          swapFirstTwoNodesInList args⟩]
      else if !compareActualFirst && !isLiteralNode a0 && isLiteralNode a1 then
        [⟨.expectedFirst, a0, getText a0, getText a1,
          swapFirstTwoNodesInList args⟩]
      else []
  | _ => []

end Lco

/-- Claim C5: for a comparative assertion call with at least two
arguments, the literal-compare-order check reports with a verbatim
swap-fix exactly in the two described literal/non-literal argument
shapes, and reports nothing in every other shape. -/
theorem lco_check_characterization (a0 a1 : Node) (rest : List Node) (cAF : Bool) :
    (cAF = true → Lco.isLiteralNode a0 = true → Lco.isLiteralNode a1 = false →
      Lco.checkLiteralCompareOrder (a0 :: a1 :: rest) cAF =
        [⟨.actualFirst, a0, getText a0, getText a1,
          [⟨a0, getText a1⟩, ⟨a1, getText a0⟩]⟩]) ∧
      (cAF = false → Lco.isLiteralNode a0 = false → Lco.isLiteralNode a1 = true →
        Lco.checkLiteralCompareOrder (a0 :: a1 :: rest) cAF =
          [⟨.expectedFirst, a0, getText a0, getText a1,
            [⟨a0, getText a1⟩, ⟨a1, getText a0⟩]⟩]) ∧
      (¬(cAF = true ∧ Lco.isLiteralNode a0 = true ∧ Lco.isLiteralNode a1 = false) →
        ¬(cAF = false ∧ Lco.isLiteralNode a0 = false ∧ Lco.isLiteralNode a1 = true) →
        Lco.checkLiteralCompareOrder (a0 :: a1 :: rest) cAF = []) := by
  refine ⟨?_, ?_, ?_⟩
  · intro hc h0 h1
    simp [Lco.checkLiteralCompareOrder, Lco.swapFirstTwoNodesInList, hc, h0, h1]
  · intro hc h0 h1
    simp [Lco.checkLiteralCompareOrder, Lco.swapFirstTwoNodesInList, hc, h0, h1]
  · intro hn1 hn2
    simp only [Lco.checkLiteralCompareOrder]
    rw [if_neg, if_neg]
    · intro h
      simp only [Bool.and_eq_true, Bool.not_eq_true'] at h
      exact hn2 ⟨by simpa using h.1.1, by simpa using h.1.2, h.2⟩
    · intro h
      simp only [Bool.and_eq_true, Bool.not_eq_true'] at h
      exact hn1 ⟨h.1.1, h.1.2, by simpa using h.2⟩

/-- Witness for `lco_check_characterization`: `assert.equal(42, x)` with
the actual-first convention is reported with the swap fix. -/
theorem lco_check_characterization_witness :
    Lco.checkLiteralCompareOrder [.lit (.num 42) 7, .ident "x"] true =
      [⟨.actualFirst, .lit (.num 42) 7, "42", "x",
        [⟨.lit (.num 42) 7, "x"⟩, ⟨.ident "x", "42"⟩]⟩] := by
  have h := (lco_check_characterization (.lit (.num 42) 7) (.ident "x") [] true).1
    rfl rfl rfl
  simpa using h

/-! ## Rule `no-assert-equal` (claim C6)

Translated from `lib/rules/no-assert-equal.js`.  The test-stack frames of
this rule have the same shape as those of `no-assert-equal-boolean`, so
the frame type `Nab.TestFrame` is reused. -/

namespace Nae

/-- `isAssertEqual`: a member callee `<v>.equal` where `<v>` is the
current assertion-context variable. -/
def isAssertEqual (testStack : List Nab.TestFrame) (calleeNode : Node) : Bool :=
  match calleeNode with
  | .member (.ident obj) (.ident p) =>
      p == "equal" &&
        match Nab.getCurrentAssertContextVariable testStack with
        | some (some v) => obj == v
        | _ => false
  | _ => false

/-- Modelled from the spec: the scope/reference index determines whether
a free identifier reference resolves to the outer (global) scope; the
rule's `Program` handler uses the external `ReferenceTracker` to collect
exactly the call nodes whose callee is the global `equal`.  The model
takes the resolution verdict as an input. -/
def isGlobalEqualCall (calleeNode : Node) (resolvesToOuterScope : Bool) : Bool :=
  (match calleeNode with
    | .ident name => name == "equal"
    | _ => false) && resolvesToOuterScope

/-- The rule's `CallExpression` handler outcome on a call: test
registrations push a frame and are never reported; other calls are
reported only inside a test frame, either as `<v>.equal` or as a
collected global `equal` call. -/
def naeReports (testStack : List Nab.TestFrame) (calleeNode : Node)
    (resolvesToOuterScope : Bool) : Bool :=
  if Utils.isTest calleeNode || Utils.isAsyncTest calleeNode then false
  else if testStack.length > 0 then
    isAssertEqual testStack calleeNode ||
      isGlobalEqualCall calleeNode resolvesToOuterScope
  else false

end Nae

/-- Claim C6, counterexample: in the program
`function equal(a,b){}; QUnit.test('n', function(assert){ equal(true, x); })`
the bare `equal` reference is shadowed by a local binding, so its
resolution verdict is `false`; the `no-assert-equal` rule indeed does not
report it, but the `no-assert-equal-boolean` rule — which performs no
scope resolution at all — does report the call, contradicting the claim
that a bare `equal` shadowed by a local binding is never reported by the
rules. -/
theorem nae_shadowed_bare_equal_counterexample :
    Nae.isGlobalEqualCall (.ident "equal") false = false ∧
      Nae.naeReports [⟨some "assert"⟩] (.ident "equal") false = false ∧
      Nab.shouldReport [⟨some "assert"⟩] (.ident "equal")
        [.lit (.bool true) 2, .ident "x"] = true := by
  refine ⟨rfl, rfl, rfl⟩

/-- Claim C6 as amended: the `no-assert-equal` rule reports a bare
`equal` call exactly when the reference resolves to the outer scope and
an active test frame exists, and reports `<obj>.equal` exactly when
`<obj>` is the currently bound assertion-context variable; the
`no-assert-equal-boolean` rule classifies bare equality-assertion
identifiers purely syntactically, reporting them inside any test frame
with a boolean argument, with no scope-resolution input at all. -/
theorem nae_equal_classification (testStack : List Nab.TestFrame) (r : Bool) :
    (Nae.naeReports testStack (.ident "equal") r = (decide (testStack ≠ []) && r)) ∧
      (∀ v obj : String,
        Nab.getCurrentAssertContextVariable testStack = some (some v) →
        Nae.naeReports testStack (.member (.ident obj) (.ident "equal")) r =
          (obj == v)) ∧
      (∀ (name : String) (args : List Node), name ∈ Nab.EQUALITY_ASSERTIONS →
        testStack ≠ [] → (Nab.getBooleanArgument args).isSome →
        Nab.shouldReport testStack (.ident name) args = true) := by
  refine ⟨?_, ?_, ?_⟩
  · cases testStack with
    | nil => simp [Nae.naeReports, Utils.isTest, Utils.isAsyncTest, Utils.testNames]
    | cons f t =>
        simp [Nae.naeReports, Utils.isTest, Utils.isAsyncTest, Utils.testNames,
          Nae.isAssertEqual, Nae.isGlobalEqualCall]
  · intro v obj h
    cases testStack with
    | nil => simp [Nab.getCurrentAssertContextVariable] at h
    | cons f t =>
        simp [Nab.getCurrentAssertContextVariable] at h
        simp [Nae.naeReports, Utils.isTest, Utils.isAsyncTest, Utils.testNames,
          Nae.isAssertEqual, Nae.isGlobalEqualCall,
          Nab.getCurrentAssertContextVariable, h]
  · intro name args hname hne hb
    cases testStack with
    | nil => exact absurd rfl hne
    | cons f t =>
        simp [Nab.shouldReport, Nab.isEqualityAssertion,
          Nab.isGlobalEqualityAssertion, hname, hb]

/-- Witness for `nae_equal_classification`: concrete instances of all
three parts. -/
theorem nae_equal_classification_witness :
    Nae.naeReports [⟨some "assert"⟩] (.ident "equal") true = true ∧
      Nae.naeReports [⟨some "assert"⟩]
        (.member (.ident "assert") (.ident "equal")) false = true ∧
      Nab.shouldReport [⟨some "assert"⟩] (.ident "deepEqual")
        [.lit (.bool false) 1, .ident "y"] = true := by
  refine ⟨?_, ?_, ?_⟩
  · have h := (nae_equal_classification [⟨some "assert"⟩] true).1
    simpa using h
  · have h := (nae_equal_classification [⟨some "assert"⟩] false).2.1 "assert" "assert" rfl
    simpa using h
  · exact (nae_equal_classification [⟨some "assert"⟩] false).2.2 "deepEqual"
      [.lit (.bool false) 1, .ident "y"] (by decide) (by simp) (by rfl)

/-! ## Rule `resolve-async` (claims C1, C10)

Translated from the `resolve-async` rule source.  The model works on one
frame of the rule's `asyncStateStack` (the stack in the source exists for
nested test registrations, which QUnit does not support). -/

namespace Ra

/-- A JavaScript number: an integer or NaN.  The rule's semaphore only
ever holds integer increments or the result of coercing an AST node,
which is NaN. -/
inductive JSNum : Type where
  | num (n : Int)
  | nan
  deriving Repr, DecidableEq

/-- JavaScript addition: NaN is absorbing. -/
def JSNum.add : JSNum → JSNum → JSNum
  | .num a, .num b => .num (a + b)
  | _, _ => .nan

/-- JavaScript unary minus: NaN stays NaN. -/
def JSNum.negate : JSNum → JSNum
  | .num n => .num (-n)
  | .nan => .nan

/-- JavaScript `x > 0`: false for NaN. -/
def JSNum.isPos : JSNum → Bool
  | .num n => decide (0 < n)
  | .nan => false

/-- One frame of `asyncStateStack`. -/
structure AsyncState : Type where
  stopSemaphoreCount : JSNum
  asyncCallbackVars : List (String × Bool)
  assertContextVar : Option String
  deriving Repr, DecidableEq

/-- Assignment `vars[name] = v` on a JavaScript object, preserving key
insertion order. -/
def setVar : List (String × Bool) → String → Bool → List (String × Bool)
  | [], name, v => [(name, v)]
  | (k, b) :: rest, name, v =>
      if k == name then (k, v) :: rest else (k, b) :: setVar rest name v

/-- `name in vars`. -/
def lookupVar (vars : List (String × Bool)) (name : String) : Option Bool :=
  (vars.find? (fun kv => kv.1 == name)).map (·.2)

/-- The rule's `isAsyncCallExpression` wrapper: false when the frame has
no assertion-context variable. -/
def isAsyncCallExpressionRule (s : AsyncState) (n : Node) : Bool :=
  match s.assertContextVar with
  | some v => Utils.isAsyncCallExpression n v
  | none => false

/-- `getAsyncCallbackVarOrNull`: a tracked callback variable invoked
directly, or through `.call`/`.apply` on itself. -/
def getAsyncCallbackVarOrNull (s : AsyncState) (calleeNode : Node) :
    Option String :=
  match calleeNode with
  | .ident name =>
      if (lookupVar s.asyncCallbackVars name).isSome then some name else none
  | .member (.ident objName) (.ident propName) =>
      if (propName == "call" || propName == "apply") &&
          (lookupVar s.asyncCallbackVars objName).isSome then
        some objName
      else none
  | _ => none

/-- `incrementSemaphoreCount`. -/
def incrementSemaphoreCount (s : AsyncState) (amount : JSNum) : AsyncState :=
  { s with stopSemaphoreCount := s.stopSemaphoreCount.add amount }

/-- `addAsyncCallbackVar`: only an `Identifier` left-hand side is
recorded, with the invoked flag false. -/
def addAsyncCallbackVar (s : AsyncState) (lhsNode : Node) : AsyncState :=
  match lhsNode with
  | .ident name => { s with asyncCallbackVars := setVar s.asyncCallbackVars name false }
  | _ => s

/-- `markAsyncCallbackVarCalled`. -/
def markAsyncCallbackVarCalled (s : AsyncState) (name : String) : AsyncState :=
  { s with asyncCallbackVars := setVar s.asyncCallbackVars name true }

/-- The source computes `delta = +node.arguments[0]`: unary plus applied
to the ESTree node object itself (not to its literal value).  ToNumber of
an ordinary object is NaN, for every node. -/
def jsToNumberOfNode (_ : Node) : JSNum := .nan

/-- A diagnostic of the rule. -/
inductive RaDiag : Type where
  | needMoreStartCalls (semaphore : JSNum)
  | asyncCallbackNotCalled (asyncVar : String)
  deriving Repr, DecidableEq

/-- `verifyAsyncState`, run on frame exit: a needs-more-start-calls
report when the semaphore is positive (carrying the counter value), then
one report per tracked callback variable whose invoked flag is still
false, in insertion order. -/
def verifyAsyncState (s : AsyncState) : List RaDiag :=
  (if s.stopSemaphoreCount.isPos then
    [.needMoreStartCalls s.stopSemaphoreCount]
  else []) ++
    ((s.asyncCallbackVars.filter (fun kv => kv.2 == false)).map
      (fun kv => .asyncCallbackNotCalled kv.1))

/-- The frame pushed when a test registration is entered: semaphore 1
for a legacy async test, 0 otherwise; no tracked callbacks; the
assertion-context variable from the test callback's parameters. -/
def initAsyncState (calleeNode : Node) (args : List Node) : AsyncState :=
  { stopSemaphoreCount := if Utils.isAsyncTest calleeNode then .num 1 else .num 0,
    asyncCallbackVars := [],
    assertContextVar := Utils.getAssertContextNameForTest args }

/-- The non-test branch of the rule's `CallExpression` handler: mark a
tracked callback invoked, or adjust the semaphore for stop/start calls
(`delta` is the coerced first argument when present, else 1). -/
def handleCallExpression (s : AsyncState) (calleeNode : Node)
    (args : List Node) : AsyncState :=
  match getAsyncCallbackVarOrNull s calleeNode with
  | some callbackVar => markAsyncCallbackVarCalled s callbackVar
  | none =>
      if Utils.isStop calleeNode then
        incrementSemaphoreCount s
          (if args.length > 0 then jsToNumberOfNode args[0]! else .num 1)
      else if Utils.isStart calleeNode then
        incrementSemaphoreCount s
          (if args.length > 0 then jsToNumberOfNode args[0]! else .num 1).negate
      else s

/-- The `AssignmentExpression` handler: track only when the right-hand
side is the context's `.async()` call and the target is a plain
`Identifier`. -/
def handleAssignmentExpression (s : AsyncState) (left right : Node) : AsyncState :=
  if isAsyncCallExpressionRule s right then
    match left with
    | .ident _ => addAsyncCallbackVar s left
    | _ => s
  else s

/-- The `VariableDeclarator` handler: as for assignments, with the
declarator's optional initializer. -/
def handleVariableDeclarator (s : AsyncState) (idNode : Node)
    (init : Option Node) : AsyncState :=
  match init with
  | some i =>
      if isAsyncCallExpressionRule s i then
        match idNode with
        | .ident _ => addAsyncCallbackVar s idNode
        | _ => s
      else s
  | none => s

/-- Processing of the call expressions occurring inside one test frame,
in traversal order. -/
def processFrameCalls (s : AsyncState) : List Node → AsyncState
  | [] => s
  | .call callee args :: rest =>
      processFrameCalls (handleCallExpression s callee args) rest
  | _ :: rest => processFrameCalls s rest

/-- Modelled from the spec: the async-resolution counter is "incremented
by each stop call (by its explicit count N when an argument is given,
else by 1) and decremented likewise by each start call".  N is the
numeric literal argument. -/
def specDelta (args : List Node) : Int :=
  match args with
  | [] => 1
  | .lit (.num n) _ :: _ => n
  | _ :: _ => 1

/-- Modelled from the spec: the counter value after the frame's calls,
starting from 1 for a legacy async-test registration and 0 otherwise. -/
def specSemaphoreAfter (isAsync : Bool) (calls : List Node) : Int :=
  calls.foldl
    (fun acc c =>
      match c with
      | .call callee args =>
          if Utils.isStop callee then acc + specDelta args
          else if Utils.isStart callee then acc - specDelta args
          else acc
      | _ => acc)
    (if isAsync then 1 else 0)

end Ra

/-- Claim C1: evaluation of the rule at the frame
`QUnit.test('t', function (assert) { stop(2); start(); })`.
The source computes the explicit stop count as `+node.arguments[0]`,
coercing the ESTree argument node itself, which is NaN; the semaphore
becomes NaN and `NaN > 0` is false, so the rule reports nothing, while
the specified counter is 0 + 2 - 1 = 1 and a needs-more-start-calls
report is required.  The final conjunct checks the claim's particular
case (one implicit stop directly followed by one implicit start reports
nothing), which the code does satisfy. -/
theorem resolve_async_explicit_stop_count_lost :
    Ra.verifyAsyncState (Ra.processFrameCalls
        (Ra.initAsyncState (.member (.ident "QUnit") (.ident "test"))
          [.lit (.str "t") 1, .fn false [.ident "assert"] (.block [])])
        [.call (.ident "stop") [.lit (.num 2) 1],
         .call (.ident "start") []]) = [] ∧
      (Ra.processFrameCalls
        (Ra.initAsyncState (.member (.ident "QUnit") (.ident "test"))
          [.lit (.str "t") 1, .fn false [.ident "assert"] (.block [])])
        [.call (.ident "stop") [.lit (.num 2) 1],
         .call (.ident "start") []]).stopSemaphoreCount = .nan ∧
      Ra.specSemaphoreAfter false
        [.call (.ident "stop") [.lit (.num 2) 1],
         .call (.ident "start") []] = 1 ∧
      Ra.verifyAsyncState (Ra.processFrameCalls
        (Ra.initAsyncState (.member (.ident "QUnit") (.ident "test"))
          [.lit (.str "t") 1, .fn false [.ident "assert"] (.block [])])
        [.call (.ident "stop") [], .call (.ident "start") []]) = [] := by
  refine ⟨rfl, rfl, by decide, rfl⟩

/-- Claim C10: a `.async()` result is tracked as a pending callback only
when bound directly to a plain identifier target; destructuring or
member-expression targets leave the frame state unchanged, so such
callbacks are never reported as not called on frame exit. -/
theorem resolve_async_callback_tracking (s : Ra.AsyncState)
    (left right idNode : Node) (init : Option Node) :
    ((∀ nm, left ≠ .ident nm) → Ra.handleAssignmentExpression s left right = s) ∧
      ((∀ nm, idNode ≠ .ident nm) → Ra.handleVariableDeclarator s idNode init = s) ∧
      (∀ nm, left = .ident nm → Ra.isAsyncCallExpressionRule s right = true →
        Ra.handleAssignmentExpression s left right =
          { s with asyncCallbackVars := Ra.setVar s.asyncCallbackVars nm false }) ∧
      (∀ nm i, idNode = .ident nm → init = some i →
        Ra.isAsyncCallExpressionRule s i = true →
        Ra.handleVariableDeclarator s idNode init =
          { s with asyncCallbackVars := Ra.setVar s.asyncCallbackVars nm false }) ∧
      ((∀ nm, left ≠ .ident nm) →
        Ra.verifyAsyncState (Ra.handleAssignmentExpression s left right) =
          Ra.verifyAsyncState s) := by
  have hassign : (∀ nm, left ≠ .ident nm) →
      Ra.handleAssignmentExpression s left right = s := by
    intro h
    unfold Ra.handleAssignmentExpression
    by_cases hb : Ra.isAsyncCallExpressionRule s right
    · rw [if_pos hb]
      cases left with
      | ident nm => exact absurd rfl (h nm)
      | _ => rfl
    · rw [if_neg hb]
  refine ⟨hassign, ?_, ?_, ?_, fun h => by rw [hassign h]⟩
  · intro h
    cases init with
    | none => rfl
    | some i =>
        by_cases hb : Ra.isAsyncCallExpressionRule s i
        · cases idNode with
          | ident nm => exact absurd rfl (h nm)
          | lit v line => simp [Ra.handleVariableDeclarator, hb]
          | member obj propNode => simp [Ra.handleVariableDeclarator, hb]
          | call callee args => simp [Ra.handleVariableDeclarator, hb]
          | unary op argument => simp [Ra.handleVariableDeclarator, hb]
          | fn arrow params body => simp [Ra.handleVariableDeclarator, hb]
          | block stmts => simp [Ra.handleVariableDeclarator, hb]
          | exprStmt e => simp [Ra.handleVariableDeclarator, hb]
          | arrayPat elements => simp [Ra.handleVariableDeclarator, hb]
          | loopStmt kind sub => simp [Ra.handleVariableDeclarator, hb]
        · simp [Ra.handleVariableDeclarator, hb]
  · intro nm hl hb
    subst hl
    simp [Ra.handleAssignmentExpression, hb, Ra.addAsyncCallbackVar]
  · intro nm i hid hinit hb
    subst hid
    subst hinit
    simp [Ra.handleVariableDeclarator, hb, Ra.addAsyncCallbackVar]

/-- Witness for `resolve_async_callback_tracking`: in a frame binding
`assert`, the assignment `[a, b] = assert.async()` tracks nothing, while
`done = assert.async()` tracks `done` as pending. -/
theorem resolve_async_callback_tracking_witness :
    Ra.handleAssignmentExpression ⟨.num 0, [], some "assert"⟩
        (.arrayPat [.ident "a", .ident "b"])
        (.call (.member (.ident "assert") (.ident "async")) []) =
      ⟨.num 0, [], some "assert"⟩ ∧
      Ra.handleAssignmentExpression ⟨.num 0, [], some "assert"⟩
          (.ident "done")
          (.call (.member (.ident "assert") (.ident "async")) []) =
        ⟨.num 0, [("done", false)], some "assert"⟩ := by
  constructor
  · exact (resolve_async_callback_tracking ⟨.num 0, [], some "assert"⟩
      (.arrayPat [.ident "a", .ident "b"])
      (.call (.member (.ident "assert") (.ident "async")) [])
      (.ident "") none).1 (by intro nm h; cases h)
  · have h := (resolve_async_callback_tracking ⟨.num 0, [], some "assert"⟩
      (.ident "done")
      (.call (.member (.ident "assert") (.ident "async")) [])
      (.ident "") none).2.2.1 "done" rfl (by rfl)
    simpa [Ra.setVar] using h

/-! ## Rule `no-identical-names`, module handling (claim C7)

Translated from the `no-identical-names` rule source
(`handleModuleNames` and the module stack of its `CallExpression`
handlers).  A sibling module registration is represented by its
string-literal name and the source line of that name argument
(`arguments[0].loc.start.line`); the ancestors parameter is the module
stack above the processed nesting level (the implicit top-level module
carries no name and is filtered out by the source). -/

namespace Nin

/-- A module registration call with a string-literal first argument:
its title and the line of the name argument. -/
structure ModuleSib : Type where
  name : String
  line : Nat
  deriving Repr, DecidableEq

/-- The module-related message identifiers of the rule. -/
inductive NinMsgId : Type where
  | duplicateModule
  | duplicateModuleAncestor
  deriving Repr, DecidableEq

/-- A module diagnostic: message id, the line of the name argument it is
placed on, and the line carried in its message data. -/
structure NinDiag : Type where
  msgId : NinMsgId
  atLine : Nat
  dataLine : Nat
  deriving Repr, DecidableEq

/-- `modules.find(... arguments[0].value === title)`: the first recorded
module with the given title. -/
def findDuplicate (seen : List ModuleSib) (title : String) : Option ModuleSib :=
  seen.find? (fun m => m.name == title)

/-- The reporting part of `handleModuleNames` for one module call: a
`duplicateModule` report against the first same-titled sibling already
recorded in the current module's children list, then a
`duplicateModuleAncestor` report against the first same-titled module on
the ancestor stack. -/
def handleModuleNames (ancestors seen : List ModuleSib) (m : ModuleSib) :
    List NinDiag :=
  (match findDuplicate seen m.name with
    | some d => [⟨.duplicateModule, m.line, d.line⟩]
    | none => []) ++
    (match findDuplicate ancestors m.name with
      | some d => [⟨.duplicateModuleAncestor, m.line, d.line⟩]
      | none => [])

/-- Processing of the sibling module registrations of one nesting level
in source order: each is checked against the previously recorded
siblings (`currentModuleInfo.modules`) and then appended to them. -/
def processSiblings (ancestors seen : List ModuleSib) :
    List ModuleSib → List NinDiag
  | [] => []
  | m :: rest =>
      handleModuleNames ancestors seen m ++
        processSiblings ancestors (seen ++ [m]) rest

theorem findDuplicate_eq_none {l : List ModuleSib} {t : String}
    (h : t ∉ l.map (fun m => m.name)) : findDuplicate l t = none := by
  apply List.find?_eq_none.mpr
  intro m hm
  simp only [beq_eq_false_iff_ne, ne_eq, Bool.not_eq_true]
  intro hmt
  exact h (by simpa using ⟨m, hm, by simpa using hmt⟩)

theorem handleModuleNames_fresh (ancestors seen : List ModuleSib)
    (m : ModuleSib) (h1 : m.name ∉ seen.map (fun x => x.name))
    (h2 : m.name ∉ ancestors.map (fun x => x.name)) :
    handleModuleNames ancestors seen m = [] := by
  simp [handleModuleNames, findDuplicate_eq_none h1, findDuplicate_eq_none h2]

theorem processSiblings_fresh (ancestors : List ModuleSib) :
    ∀ (l seen : List ModuleSib),
      (l.map (fun m => m.name)).Nodup →
      (∀ t ∈ l.map (fun m => m.name), t ∉ seen.map (fun m => m.name)) →
      (∀ t ∈ l.map (fun m => m.name), t ∉ ancestors.map (fun m => m.name)) →
      processSiblings ancestors seen l = [] := by
  intro l
  induction l with
  | nil => intro seen _ _ _; rfl
  | cons m rest ih =>
      intro seen hnd hseen hanc
      simp only [List.map_cons, List.nodup_cons] at hnd
      have h1 : m.name ∉ seen.map (fun x => x.name) :=
        hseen m.name (by simp)
      have h2 : m.name ∉ ancestors.map (fun x => x.name) :=
        hanc m.name (by simp)
      rw [processSiblings, handleModuleNames_fresh ancestors seen m h1 h2]
      rw [ih (seen ++ [m]) hnd.2 ?_ ?_]
      · rfl
      · intro t ht
        simp only [List.map_append, List.map_cons, List.map_nil,
          List.mem_append, List.mem_singleton]
        rintro (hts | rfl)
        · exact hseen t (by simp [ht]) hts
        · exact hnd.1 ht
      · intro t ht
        exact hanc t (by simp [ht])

theorem processSiblings_append (ancestors : List ModuleSib) :
    ∀ (u seen v : List ModuleSib),
      processSiblings ancestors seen (u ++ v) =
        processSiblings ancestors seen u ++
          processSiblings ancestors (seen ++ u) v := by
  intro u
  induction u with
  | nil => intro seen v; simp [processSiblings]
  | cons m u' ih =>
      intro seen v
      simp only [List.cons_append, processSiblings, List.append_eq]
      rw [ih (seen ++ [m]) v]
      simp [List.append_assoc]

end Nin

namespace Nin

theorem findDuplicate_append_of_none {l1 l2 : List ModuleSib} {t : String}
    (h : findDuplicate l1 t = none) :
    findDuplicate (l1 ++ l2) t = findDuplicate l2 t := by
  induction l1 with
  | nil => rfl
  | cons x l1' ih =>
      unfold findDuplicate at h ⊢
      rw [List.find?_cons] at h
      rw [List.cons_append, List.find?_cons]
      cases hx : (x.name == t) with
      | true => simp_all
      | false =>
          rw [hx] at h
          exact ih h

/-- Claim C7: when exactly two sibling module registrations at one
nesting level share a string-literal name (all other sibling names being
pairwise distinct and different from it, and no ancestor module carrying
any of the names), the rule reports exactly one diagnostic: a
`duplicateModule` report placed on the second occurrence's name argument
whose data carries the line of the first occurrence's name argument; the
first occurrence is not reported. -/
theorem nin_duplicate_sibling_module (ancestors xs ys zs : List ModuleSib)
    (a b : ModuleSib) (hab : a.name = b.name)
    (hnodup : ((xs ++ ys ++ zs).map (fun m => m.name)).Nodup)
    (hfresh : a.name ∉ (xs ++ ys ++ zs).map (fun m => m.name))
    (hanc : ∀ m ∈ ancestors, m.name ≠ a.name ∧
      m.name ∉ (xs ++ ys ++ zs).map (fun x => x.name)) :
    processSiblings ancestors [] (xs ++ a :: ys ++ b :: zs) =
      [⟨.duplicateModule, b.line, a.line⟩] := by
  simp only [List.map_append] at hnodup hfresh
  rw [List.nodup_append] at hnodup
  obtain ⟨hn12, hnz, hdisjz⟩ := hnodup
  rw [List.nodup_append] at hn12
  obtain ⟨hnx, hny, hdisjxy⟩ := hn12
  simp only [List.mem_append] at hfresh
  push_neg at hfresh
  obtain ⟨⟨hfx, hfy⟩, hfz⟩ := hfresh
  have hancname : ∀ t ∈ ancestors.map (fun x => x.name),
      t ≠ a.name ∧ t ∉ (xs ++ ys ++ zs).map (fun x => x.name) := by
    intro t ht
    simp only [List.mem_map] at ht
    obtain ⟨m, hm, rfl⟩ := ht
    exact hanc m hm
  have hancn : ∀ t, t ∈ ancestors.map (fun x => x.name) → t ≠ a.name := by
    intro t ht
    exact (hancname t ht).1
  have hancx : ∀ t ∈ xs.map (fun m => m.name),
      t ∉ ancestors.map (fun m => m.name) := by
    intro t ht hta
    exact (hancname t hta).2 (by simp only [List.map_append, List.mem_append]; tauto)
  have hancy : ∀ t ∈ ys.map (fun m => m.name),
      t ∉ ancestors.map (fun m => m.name) := by
    intro t ht hta
    exact (hancname t hta).2 (by simp only [List.map_append, List.mem_append]; tauto)
  have hancz : ∀ t ∈ zs.map (fun m => m.name),
      t ∉ ancestors.map (fun m => m.name) := by
    intro t ht hta
    exact (hancname t hta).2 (by simp only [List.map_append, List.mem_append]; tauto)
  -- the sibling list is ((xs ++ a :: ys) ++ b :: zs)
  rw [processSiblings_append ancestors (xs ++ a :: ys) [] (b :: zs)]
  rw [processSiblings_append ancestors xs [] (a :: ys)]
  simp only [List.nil_append]
  rw [processSiblings_fresh ancestors xs [] hnx (by simp) hancx]
  rw [processSiblings]
  have hha : handleModuleNames ancestors xs a = [] := by
    refine handleModuleNames_fresh ancestors xs a hfx ?_
    intro hmem
    exact hancn a.name hmem rfl
  rw [hha]
  rw [processSiblings_fresh ancestors ys (xs ++ [a]) hny ?hys hancy]
  case hys =>
    intro t ht
    simp only [List.map_append, List.mem_append, List.map_cons, List.map_nil,
      List.mem_singleton, List.mem_cons, List.not_mem_nil, or_false, not_or]
    constructor
    · intro hts
      exact hdisjxy hts ht
    · intro hta
      exact hfy (hta ▸ ht)
  rw [processSiblings]
  have hfind : findDuplicate (xs ++ a :: ys) b.name = some a := by
    rw [findDuplicate_append_of_none (findDuplicate_eq_none (hab ▸ hfx))]
    unfold findDuplicate
    rw [List.find?_cons]
    have hbeq : (a.name == b.name) = true := by simp [hab]
    rw [hbeq]
  have hancb : findDuplicate ancestors b.name = none := by
    refine findDuplicate_eq_none ?_
    intro hmem
    exact hancn b.name hmem hab.symm
  rw [show handleModuleNames ancestors (xs ++ a :: ys) b =
      [⟨.duplicateModule, b.line, a.line⟩] from by
    simp [handleModuleNames, hfind, hancb]]
  rw [processSiblings_fresh ancestors zs ((xs ++ a :: ys) ++ [b]) hnz ?hzs hancz]
  case hzs =>
    intro t ht
    simp only [List.map_append, List.mem_append, List.map_cons, List.map_nil,
      List.mem_singleton, List.mem_cons, List.not_mem_nil, or_false, not_or]
    refine ⟨⟨?_, ?_, ?_⟩, ?_⟩
    · intro hts
      exact hdisjz (by simp only [List.mem_append]; tauto) ht
    · intro hta
      exact hfz (hta ▸ ht)
    · intro hts
      exact hdisjz (by simp only [List.mem_append]; tauto) ht
    · intro htb
      exact hfz ((hab.symm ▸ htb : t = a.name) ▸ ht)
  simp

end Nin

/-- Witness for `Nin.nin_duplicate_sibling_module`: two sibling
`QUnit.module('Same', ...)` calls on lines 1 and 2 produce exactly one
`duplicateModule` diagnostic, on line 2, referencing line 1. -/
theorem nin_duplicate_sibling_module_witness :
    Nin.processSiblings [] [] [⟨"Same", 1⟩, ⟨"Same", 2⟩] =
      [⟨.duplicateModule, 2, 1⟩] := by
  have h := Nin.nin_duplicate_sibling_module [] [] [] [] ⟨"Same", 1⟩ ⟨"Same", 2⟩
    rfl (by simp) (by simp) (by simp)
  simpa using h

/-! ## Depth-first traversal events (claim C9)

The ESLint host performs one depth-first pass, invoking each rule's
enter handler when a node is entered and its exit handler when the node
is exited; `eventsOf` is that event stream. -/

/-- An enter or exit event of the host's depth-first traversal. -/
inductive TraceEvent : Type where
  | enter (n : Node)
  | leave (n : Node)
  deriving Repr

mutual

/-- The depth-first event stream of a subtree: enter the node, traverse
the children in order, exit the node. -/
def eventsOf : Node → List TraceEvent
  | .ident name =>
      .enter (.ident name) :: [.leave (.ident name)]
  | .lit v line =>
      .enter (.lit v line) :: [.leave (.lit v line)]
  | .member obj propNode =>
      .enter (.member obj propNode) ::
        (eventsOf obj ++ eventsOf propNode ++ [.leave (.member obj propNode)])
  | .call callee args =>
      .enter (.call callee args) ::
        (eventsOf callee ++ eventsOfList args ++ [.leave (.call callee args)])
  | .unary op argument =>
      .enter (.unary op argument) ::
        (eventsOf argument ++ [.leave (.unary op argument)])
  | .fn arrow params body =>
      .enter (.fn arrow params body) ::
        (eventsOfList params ++ eventsOf body ++ [.leave (.fn arrow params body)])
  | .block stmts =>
      .enter (.block stmts) :: (eventsOfList stmts ++ [.leave (.block stmts)])
  | .exprStmt e =>
      .enter (.exprStmt e) :: (eventsOf e ++ [.leave (.exprStmt e)])
  | .arrayPat elements =>
      .enter (.arrayPat elements) ::
        (eventsOfList elements ++ [.leave (.arrayPat elements)])
  | .loopStmt kind sub =>
      .enter (.loopStmt kind sub) ::
        (eventsOfList sub ++ [.leave (.loopStmt kind sub)])

/-- Event streams of a list of sibling subtrees, in order. -/
def eventsOfList : List Node → List TraceEvent
  | [] => []
  | c :: cs => eventsOf c ++ eventsOfList cs

end

theorem eventsOfList_append (l1 l2 : List Node) :
    eventsOfList (l1 ++ l2) = eventsOfList l1 ++ eventsOfList l2 := by
  induction l1 with
  | nil => simp [eventsOfList]
  | cons c cs ih => simp [eventsOfList, ih]

theorem events_eq (n : Node) :
    eventsOf n = .enter n :: (eventsOfList (children n) ++ [.leave n]) := by
  cases n <;>
    simp [eventsOf, eventsOfList, children, eventsOfList_append, List.append_assoc]

/-- A rule's run over an event stream: the host calls the handlers in
stream order, threading the rule's state. -/
def runSteps {σ : Type} (step : σ → TraceEvent → σ) (s : σ)
    (evs : List TraceEvent) : σ :=
  evs.foldl step s

theorem runSteps_append {σ : Type} (step : σ → TraceEvent → σ) (s : σ)
    (a b : List TraceEvent) :
    runSteps step s (a ++ b) = runSteps step (runSteps step s a) b :=
  List.foldl_append step s a b

/-- If, from every state in `G`, entering any node keeps the state in
`G` and the matching exit restores the state exactly, then running the
full depth-first event stream of any subtree restores the state
exactly. -/
theorem runSteps_events_restore {σ : Type} (step : σ → TraceEvent → σ)
    (G : σ → Prop)
    (h : ∀ (n : Node) (s : σ), G s →
      G (step s (.enter n)) ∧ step (step s (.enter n)) (.leave n) = s) :
    ∀ (n : Node) (s : σ), G s → runSteps step s (eventsOf n) = s := by
  have hlist : ∀ (l : List Node),
      (∀ c ∈ l, ∀ s, G s → runSteps step s (eventsOf c) = s) →
      ∀ s, G s → runSteps step s (eventsOfList l) = s := by
    intro l
    induction l with
    | nil => intro _ s _; rfl
    | cons c cs ih =>
        intro hc s hG
        rw [show eventsOfList (c :: cs) = eventsOf c ++ eventsOfList cs from rfl]
        rw [runSteps_append, hc c (by simp) s hG]
        exact ih (fun d hd => hc d (by simp [hd])) s hG
  refine node_ind (fun n => ∀ s, G s → runSteps step s (eventsOf n) = s) ?_
  intro n ihc s hG
  rw [events_eq n]
  rw [show runSteps step s (.enter n :: (eventsOfList (children n) ++ [.leave n])) =
      runSteps step (step s (.enter n))
        (eventsOfList (children n) ++ [.leave n]) from rfl]
  rw [runSteps_append]
  rw [hlist (children n) ihc (step s (.enter n)) (h n s hG).1]
  exact (h n s hG).2

/-! ## Node equality (JavaScript strict equality of stacked nodes) -/

mutual

/-- Structural node equality, standing for JavaScript reference equality
of the AST nodes the rules place on their stacks (a traversal pushes and
compares the very node objects the host hands it). -/
def nodeBeq : Node → Node → Bool
  | .ident a, .ident b => a == b
  | .lit v1 l1, .lit v2 l2 => v1 == v2 && l1 == l2
  | .member o1 p1, .member o2 p2 => nodeBeq o1 o2 && nodeBeq p1 p2
  | .call c1 a1, .call c2 a2 => nodeBeq c1 c2 && nodeBeqList a1 a2
  | .unary op1 x1, .unary op2 x2 => op1 == op2 && nodeBeq x1 x2
  | .fn ar1 p1 b1, .fn ar2 p2 b2 =>
      ar1 == ar2 && nodeBeqList p1 p2 && nodeBeq b1 b2
  | .block s1, .block s2 => nodeBeqList s1 s2
  | .exprStmt e1, .exprStmt e2 => nodeBeq e1 e2
  | .arrayPat e1, .arrayPat e2 => nodeBeqList e1 e2
  | .loopStmt k1 s1, .loopStmt k2 s2 => k1 == k2 && nodeBeqList s1 s2
  | _, _ => false

/-- Pointwise equality of node lists. -/
def nodeBeqList : List Node → List Node → Bool
  | [], [] => true
  | a :: as, b :: bs => nodeBeq a b && nodeBeqList as bs
  | _, _ => false

end

theorem nodeBeq_refl (n : Node) : nodeBeq n n = true := by
  have hlist : ∀ (l : List Node), (∀ c ∈ l, nodeBeq c c = true) →
      nodeBeqList l l = true := by
    intro l
    induction l with
    | nil => intro _; rfl
    | cons c cs ih =>
        intro hc
        rw [show nodeBeqList (c :: cs) (c :: cs) =
          (nodeBeq c c && nodeBeqList cs cs) from rfl]
        rw [hc c (by simp), ih (fun d hd => hc d (by simp [hd]))]
        rfl
  refine node_ind (fun n => nodeBeq n n = true) ?_ n
  intro m ihc
  cases m with
  | ident a => simp [nodeBeq]
  | lit v l => simp [nodeBeq]
  | member o p =>
      rw [show nodeBeq (.member o p) (.member o p) =
        (nodeBeq o o && nodeBeq p p) from rfl]
      rw [ihc o (by simp [children]), ihc p (by simp [children])]
      rfl
  | call c args =>
      rw [show nodeBeq (.call c args) (.call c args) =
        (nodeBeq c c && nodeBeqList args args) from rfl]
      rw [ihc c (by simp [children]),
        hlist args (fun d hd => ihc d (by simp [children, hd]))]
      rfl
  | unary op x =>
      rw [show nodeBeq (.unary op x) (.unary op x) =
        (op == op && nodeBeq x x) from rfl]
      rw [ihc x (by simp [children])]
      simp
  | fn ar ps b =>
      rw [show nodeBeq (.fn ar ps b) (.fn ar ps b) =
        (ar == ar && nodeBeqList ps ps && nodeBeq b b) from rfl]
      rw [ihc b (by simp [children]),
        hlist ps (fun d hd => ihc d (by simp [children, hd]))]
      simp
  | block ss =>
      rw [show nodeBeq (.block ss) (.block ss) = nodeBeqList ss ss from rfl]
      exact hlist ss (fun d hd => ihc d (by simp [children, hd]))
  | exprStmt e =>
      rw [show nodeBeq (.exprStmt e) (.exprStmt e) = nodeBeq e e from rfl]
      exact ihc e (by simp [children])
  | arrayPat es =>
      rw [show nodeBeq (.arrayPat es) (.arrayPat es) = nodeBeqList es es from rfl]
      exact hlist es (fun d hd => ihc d (by simp [children, hd]))
  | loopStmt k ss =>
      rw [show nodeBeq (.loopStmt k ss) (.loopStmt k ss) =
        (k == k && nodeBeqList ss ss) from rfl]
      rw [hlist ss (fun d hd => ihc d (by simp [children, hd]))]
      simp

/-! ## Rule `no-async-in-loops` loop stack, and the boolean rule's
test-stack access (claim C9) -/

namespace Nail

/-- Does the node have one of the five loop statement types the rule
subscribes to? -/
def isLoopNode : Node → Bool
  | .loopStmt _ _ => true
  | _ => false

/-- The rule's loop stack together with the outcome of its
`popAndMatch` hard assertions: `matched` stays true while every
`assert.strictEqual(actualNode, expectedNode)` has held. -/
structure LoopWatch : Type where
  loopStack : List Node
  matched : Bool
  deriving Repr

/-- `popAndMatch`: pops the loop stack and hard-asserts that the popped
node is the exiting node (an empty stack pops `undefined`, which fails
the assertion). -/
def popAndMatch (st : LoopWatch) (expectedNode : Node) : LoopWatch :=
  match st.loopStack with
  | [] => { loopStack := [], matched := false }
  | actualNode :: rest =>
      { loopStack := rest,
        matched := st.matched && nodeBeq actualNode expectedNode }

/-- The rule's loop handlers as a step function over traversal events:
each loop statement kind pushes itself on enter and pops-and-matches on
exit. -/
def loopStep (st : LoopWatch) : TraceEvent → LoopWatch
  | .enter n =>
      if isLoopNode n then { st with loopStack := n :: st.loopStack } else st
  | .leave n => if isLoopNode n then popAndMatch st n else st

end Nail

namespace Nab

/-- The boolean-assertion rule's test stack together with a flag
recording whether `getCurrentAssertContextVariable` was ever invoked on
an empty stack (i.e. whether its `assert(testStack.length)` fired).  The
non-test branch of the `CallExpression` handler evaluates
`testStack.length > 0 && isEqualityAssertion(...) && ...`, so the
accesses inside `isEqualityAssertion` (and inside the fix of a resulting
report) happen only after the short-circuited length guard passed. -/
structure AccessWatch : Type where
  testStack : List TestFrame
  accessedEmpty : Bool
  deriving Repr

/-- The rule's `CallExpression` handlers as a step function over
traversal events. -/
def accessStep (st : AccessWatch) : TraceEvent → AccessWatch
  | .enter n =>
      match n with
      | .call callee args =>
          if Utils.isTest callee || Utils.isAsyncTest callee then
            { st with testStack :=
                ⟨Utils.getAssertContextNameForTest args⟩ :: st.testStack }
          else if st.testStack.length > 0 then
            { st with accessedEmpty := st.accessedEmpty || st.testStack.isEmpty }
          else st
      | _ => st
  | .leave n =>
      match n with
      | .call callee _ =>
          if Utils.isTest callee || Utils.isAsyncTest callee then
            { st with testStack := st.testStack.tail }
          else st
      | _ => st

end Nab

/-- Claim C9: over the depth-first traversal of any AST, (a) the loops
rule's loop stack is popped in strict LIFO order — every `popAndMatch`
pops exactly the node being exited, so its hard assertion never fails
and the stack returns to its initial contents — and (b) the
boolean-assertion rule's test stack is balanced and
`getCurrentAssertContextVariable` is never invoked on an empty stack, so
its `assert(testStack.length)` never fires. -/
theorem stack_discipline_traversal (t : Node) :
    (∀ s : List Node,
      runSteps Nail.loopStep ⟨s, true⟩ (eventsOf t) = ⟨s, true⟩) ∧
      (∀ fs : List Nab.TestFrame,
        runSteps Nab.accessStep ⟨fs, false⟩ (eventsOf t) = ⟨fs, false⟩) := by
  constructor
  · intro s
    refine runSteps_events_restore Nail.loopStep
      (fun w => w.matched = true) ?_ t ⟨s, true⟩ rfl
    intro n w hw
    cases w with
    | mk stack m =>
        simp only at hw
        subst hw
        by_cases hl : Nail.isLoopNode n
        · refine ⟨by simp [Nail.loopStep, hl], ?_⟩
          simp [Nail.loopStep, hl, Nail.popAndMatch, nodeBeq_refl]
        · refine ⟨by simp [Nail.loopStep, hl], ?_⟩
          simp [Nail.loopStep, hl]
  · intro fs
    refine runSteps_events_restore Nab.accessStep
      (fun w => w.accessedEmpty = false) ?_ t ⟨fs, false⟩ rfl
    intro n w hw
    cases w with
    | mk stack acc =>
        simp only at hw
        subst hw
        cases n with
        | call callee args =>
            by_cases ht : (Utils.isTest callee || Utils.isAsyncTest callee) = true
            · refine ⟨by simp [Nab.accessStep, ht], ?_⟩
              simp [Nab.accessStep, ht]
            · rw [Bool.not_eq_true] at ht
              by_cases hlen : stack.length > 0
              · have hne : stack.isEmpty = false := by
                  cases stack with
                  | nil => simp at hlen
                  | cons f t' => rfl
                refine ⟨by simp [Nab.accessStep, ht, hlen, hne], ?_⟩
                simp [Nab.accessStep, ht, hlen, hne]
              · refine ⟨by simp [Nab.accessStep, ht, hlen], ?_⟩
                simp [Nab.accessStep, ht, hlen]
        | ident name => exact ⟨rfl, rfl⟩
        | lit v line => exact ⟨rfl, rfl⟩
        | member obj propNode => exact ⟨rfl, rfl⟩
        | unary op argument => exact ⟨rfl, rfl⟩
        | fn arrow params body => exact ⟨rfl, rfl⟩
        | block stmts => exact ⟨rfl, rfl⟩
        | exprStmt e => exact ⟨rfl, rfl⟩
        | arrayPat elements => exact ⟨rfl, rfl⟩
        | loopStmt kind sub => exact ⟨rfl, rfl⟩

/-! ## Rule `no-hooks-from-ancestor-modules` (claim C8)

Translated from `lib/rules/no-hooks-from-ancestor-modules.js`. -/

namespace Nhfam

/-- `NESTABLE_HOOK_NAMES`. -/
def NESTABLE_HOOK_NAMES : List String := ["afterEach", "beforeEach"]

/-- `getCallbackArg`: the module callback can be `args[1]` or `args[2]`
(`args.slice(1, 3).find(...)`). -/
def getCallbackArg (args : List Node) : Option Node :=
  ((args.drop 1).take 2).find? Utils.isFunctionNode

/-- `getHooksIdentifierFromParams`: the first parameter that is an
identifier other than the TypeScript type-only `this`. -/
def getHooksIdentifierFromParams (params : List Node) : Option Node :=
  params.find? (fun p =>
    match p with
    | .ident name => name != "this"
    | _ => false)

/-- `isInModuleCallbackBody`: the call's parent chain is
ExpressionStatement → BlockStatement → Function → CallExpression with a
module-registration callee.  The traversal passes the ancestor chain,
innermost parent first. -/
def isInModuleCallbackBody (parents : List Node) : Bool :=
  match parents with
  | .exprStmt _ :: .block _ :: .fn _ _ _ :: .call c _ :: _ => Utils.isModule c
  | _ => false

/-- `isHookInvocation`: a member call `<obj>.beforeEach`/`<obj>.afterEach`
in a module callback body, with identifier object and property. -/
def isHookInvocation (parents : List Node) (n : Node) : Bool :=
  match n with
  | .call (.member (.ident _) (.ident propName)) _ =>
      propName ∈ NESTABLE_HOOK_NAMES && isInModuleCallbackBody parents
  | _ => false

/-- One frame of `moduleStack` (the description and call-expression
fields of the source's frame play no part in the reporting logic and are
omitted). -/
structure ModFrame : Type where
  hookIdentifierName : Option String
  deriving Repr, DecidableEq

/-- A diagnostic of the rule: its message data. -/
structure NhDiag : Type where
  usedHooksIdentifierName : String
  invokedMethodName : String
  deriving Repr, DecidableEq

/-- The rule's state: the module stack and the diagnostics reported so
far. -/
structure NhState : Type where
  moduleStack : List ModFrame
  diags : List NhDiag
  deriving Repr, DecidableEq

/-- The rule's `CallExpression` enter handler.  A module call with a
function callback pushes a frame carrying the callback's hook parameter
name; a module call without one pushes nothing (early return).  A hook
invocation is reported when its receiver differs from the innermost
frame's hook identifier.  (With an empty module stack the source would
crash reading `undefined.hookIdentifierName`; the model reports nothing
there, and no such state is reached on the analyzed program.) -/
def enterHandler (parents : List Node) (st : NhState) (n : Node) : NhState :=
  match n with
  | .call callee args =>
      if Utils.isModule callee then
        if args.length == 0 then st
        else
          match getCallbackArg args with
          | none => st
          | some cb =>
              match cb with
              | .fn _ params _ =>
                  let hookId :=
                    match getHooksIdentifierFromParams params with
                    | some (.ident name) => some name
                    | _ => none
                  { st with moduleStack := ⟨hookId⟩ :: st.moduleStack }
              | _ => st
      else if isHookInvocation parents n then
        match n with
        | .call (.member (.ident usedName) (.ident methodName)) _ =>
            match st.moduleStack with
            | containing :: _ =>
                if containing.hookIdentifierName == some usedName then st
                else { st with diags := st.diags ++ [⟨usedName, methodName⟩] }
            | [] => st
        | _ => st
      else st
  | _ => st

/-- The rule's `CallExpression:exit` handler: pops on every module
call. -/
def exitHandler (st : NhState) (n : Node) : NhState :=
  match n with
  | .call callee _ =>
      if Utils.isModule callee then { st with moduleStack := st.moduleStack.tail }
      else st
  | _ => st

/-- The host's depth-first traversal driving the two handlers, with the
ancestor chain made explicit; the fuel bounds the recursion depth and
exceeds the depth of any analyzed program. -/
def visit : Nat → List Node → NhState → Node → NhState
  | 0, _, st, _ => st
  | fuel + 1, parents, st, n =>
      let st1 := enterHandler parents st n
      let st2 := (children n).foldl
        (fun acc c => visit fuel (n :: parents) acc c) st1
      exitHandler st2 n

/-- The program of claim C8:
`QUnit.module('A', function(hooks) { hooks.beforeEach(cbA);`
`QUnit.module('B', function(hooks2) { hooks2.beforeEach(cbB);`
`hooks.afterEach(cbC); }); });` -/
def nestedModulesProgram : Node :=
  .block [
    .exprStmt (.call (.member (.ident "QUnit") (.ident "module"))
      [.lit (.str "A") 1,
       .fn false [.ident "hooks"] (.block [
         .exprStmt (.call (.member (.ident "hooks") (.ident "beforeEach"))
           [.ident "cbA"]),
         .exprStmt (.call (.member (.ident "QUnit") (.ident "module"))
           [.lit (.str "B") 3,
            .fn false [.ident "hooks2"] (.block [
              .exprStmt (.call (.member (.ident "hooks2") (.ident "beforeEach"))
                [.ident "cbB"]),
              .exprStmt (.call (.member (.ident "hooks") (.ident "afterEach"))
                [.ident "cbC"])])])])])]

end Nhfam

/-- Claim C8: on the nested-modules program, the ancestor-hook rule
reports exactly one diagnostic — for the `hooks.afterEach` call made
inside module B's callback, whose receiver differs from B's hook
parameter `hooks2` — and the two hook calls whose receiver matches their
own module's hook parameter are not reported; the module stack is empty
again after the traversal. -/
theorem nhfam_nested_modules_single_report :
    Nhfam.visit 20 [] ⟨[], []⟩ Nhfam.nestedModulesProgram =
      ⟨[], [⟨"hooks", "afterEach"⟩]⟩ := by
  decide
